import Mathlib

/-!
Shallow embedding of src/backend/executor/nodeValuesscan.c: the VALUES-list
scan node (ValuesNext, ExecInitValuesScan, ExecReScanValuesScan), with the
external collaborators it calls (expression compilation and evaluation,
contain_subplans, MakeExpandedObjectReadOnly) modelled at their interface.
-/

namespace PGValuesScan

/-- Payload of an evaluated datum: enough value kinds for the expressions a
VALUES list in this development uses (integers and strings). -/
inductive Val where
  | vint (n : Int)
  | vstr (s : String)
deriving DecidableEq

/-- A datum as handed around by the expression engine.  `rw` records whether
the datum is (a reference to) a read-write expanded object, i.e. a mutable,
variable-extent representation that must be frozen before it may be stored
into a slot that downstream consumers read repeatedly. -/
structure Datum where
  val : Val
  rw : Bool
deriving DecidableEq

/-- Expressions appearing in a VALUES row: literals, NULL, addition, an
expression whose evaluation yields a read-write expanded object, and an
expression containing a nested SubPlan (whose run-time result is the value
of the carried expression). -/
inductive Expr where
  | intLit (n : Int)
  | strLit (s : String)
  | nullLit
  | add (a b : Expr)
  | expanded (e : Expr)
  | subplan (e : Expr)
deriving DecidableEq

/-- Modelled from the spec: the expression engine's evaluation
(ExecEvalExpr's core, outside this file): given an expression it returns a
(datum, isNull) pair.  A NULL result carries no real value, hence never a
read-write expanded reference. -/
def evalExpr : Expr → Datum × Bool
  | Expr.intLit n => (⟨Val.vint n, false⟩, false)
  | Expr.strLit s => (⟨Val.vstr s, false⟩, false)
  | Expr.nullLit => (⟨Val.vint 0, false⟩, true)
  | Expr.add a b =>
      if (evalExpr a).2 || (evalExpr b).2 then (⟨Val.vint 0, false⟩, true)
      else
        match (evalExpr a).1.val, (evalExpr b).1.val with
        | Val.vint x, Val.vint y => (⟨Val.vint (x + y), false⟩, false)
        | _, _ => (⟨Val.vint 0, false⟩, true)
  | Expr.expanded e =>
      if (evalExpr e).2 then evalExpr e
      else (⟨(evalExpr e).1.val, true⟩, false)
  | Expr.subplan e => evalExpr e

/-- Modelled from the spec: the capability query "does this expression tree
reference a nested sub-query plan?" (contain_subplans, optimizer/clauses.c,
outside this file). -/
def containsSubplanExpr : Expr → Bool
  | Expr.intLit _ => false
  | Expr.strLit _ => false
  | Expr.nullLit => false
  | Expr.add a b => containsSubplanExpr a || containsSubplanExpr b
  | Expr.expanded e => containsSubplanExpr e
  | Expr.subplan _ => true

/-- contain_subplans applied to a whole row expression list. -/
def contain_subplans (exprs : List Expr) : Bool :=
  exprs.any containsSubplanExpr

/-- The compiled, evaluatable form of one expression.  `parentLinked` records
whether compilation received the plan node as parent (the eager, permanent
case) or NULL (the transient case built inside the per-row context). -/
structure ExprState where
  expr : Expr
  parentLinked : Bool
deriving DecidableEq

/-- Modelled from the spec: ExecInitExprList (outside this file) compiles a
row's expression list; the second argument is whether the states are linked
to the plan node as parent. -/
def ExecInitExprList (exprs : List Expr) (parentLinked : Bool) : List ExprState :=
  exprs.map fun e => ⟨e, parentLinked⟩

/-- Modelled from the spec: ExecEvalExpr (outside this file) evaluates a
compiled expression state, returning (datum, isNull).  The parent link does
not change the computed value. -/
def ExecEvalExpr (st : ExprState) : Datum × Bool :=
  evalExpr st.expr

/-- Modelled from the spec: the engine's "freeze to read-only" operation
(MakeExpandedObjectReadOnly, utils/expandeddatum.h, outside this file): a
non-null read-write expanded datum is converted to an immutable,
self-contained representation; a null datum carries no value to freeze.
(The real macro also skips fixed-length columns, which can never hold an
expanded reference; the net effect is the same.) -/
def MakeExpandedObjectReadOnly (d : Datum) (isnull : Bool) : Datum :=
  if isnull then d else ⟨d.val, false⟩

/-- Scan direction as read from estate->es_direction. -/
inductive ScanDirection where
  | forward
  | backward
deriving DecidableEq

/-- The ValuesScanState fields the scan logic touches.  A slot is `none` when
it has been cleared (ExecClearTuple) and `some row` when it holds a virtual
tuple (ExecStoreVirtualTuple); a cleared scan slot is the end-of-data
marker.  The two expression contexts (rowcontext and ps_ExprContext) are
carried as opaque identities. -/
structure ValuesScanState where
  exprlists : List (List Expr)
  exprstatelists : List (Option (List ExprState))
  array_len : Int
  curr_idx : Int
  natts : Nat
  ss_ScanTupleSlot : Option (List (Datum × Bool))
  ps_ResultTupleSlot : Option (List (Datum × Bool))
  rowcontext : Nat
  ps_ExprContext : Nat
deriving DecidableEq

/-- ExecInitValuesScan: derive the tuple descriptor from the first sublist
(linitial dereferences the empty list fatally, modelled as `none`), set
curr_idx = -1 and array_len, and build the expression-state array:
eagerly compiled with the plan node as parent exactly for sublists that
contain SubPlans (checked only when estate->es_subplanstates is non-empty,
the `es_subplanstates` flag here), NIL (`none`) otherwise.  The two
expression contexts are created fresh and disjoint. -/
def ExecInitValuesScan (values_lists : List (List Expr)) (es_subplanstates : Bool) :
    Option ValuesScanState :=
  match values_lists with
  | [] => none
  | first :: _ =>
      some
        { exprlists := values_lists
          exprstatelists := values_lists.map fun exprs =>
            if es_subplanstates && contain_subplans exprs then
              some (ExecInitExprList exprs true)
            else none
          array_len := (values_lists.length : Int)
          curr_idx := -1
          natts := first.length
          ss_ScanTupleSlot := none
          ps_ResultTupleSlot := none
          rowcontext := 0
          ps_ExprContext := 1 }

/-- The cursor move at the top of ValuesNext: forward advances only while
curr_idx < array_len, backward retreats only while curr_idx >= 0. -/
def cursorAfterMove (dir : ScanDirection) (node : ValuesScanState) : Int :=
  match dir with
  | ScanDirection.forward =>
      if node.curr_idx < node.array_len then node.curr_idx + 1 else node.curr_idx
  | ScanDirection.backward =>
      if node.curr_idx ≥ 0 then node.curr_idx - 1 else node.curr_idx

/-- The expression state list ValuesNext uses for row i: the cached
(eagerly built) one if present, else a transient one built now with NULL
parent in the per-tuple context. -/
def exprstatelistFor (node : ValuesScanState) (i : Nat) : List ExprState :=
  (node.exprstatelists.getD i none).getD (ExecInitExprList (node.exprlists.getD i []) false)

/-- The virtual tuple ValuesNext stores for row i: each expression state is
evaluated and the result is forced read-only before being placed in the
slot's values/isnull arrays. -/
def materializeRowFrom (node : ValuesScanState) (i : Nat) : List (Datum × Bool) :=
  (exprstatelistFor node i).map fun st =>
    (MakeExpandedObjectReadOnly (ExecEvalExpr st).1 (ExecEvalExpr st).2, (ExecEvalExpr st).2)

/-- ValuesNext: move the cursor, always clear the scan slot, and if the new
position is in range materialize that row into the slot; the returned slot
is the node's scan slot. -/
def ValuesNext (dir : ScanDirection) (node : ValuesScanState) : ValuesScanState :=
  if 0 ≤ cursorAfterMove dir node ∧ cursorAfterMove dir node < node.array_len then
    { node with curr_idx := cursorAfterMove dir node,
                ss_ScanTupleSlot := some (materializeRowFrom node (cursorAfterMove dir node).toNat) }
  else
    { node with curr_idx := cursorAfterMove dir node, ss_ScanTupleSlot := none }

/-- The Assert in ValuesNext: when the moved-to position is in range, the
expression state list about to be evaluated must have exactly natts
entries. -/
def ValuesNextAssertHolds (dir : ScanDirection) (node : ValuesScanState) : Bool :=
  if 0 ≤ cursorAfterMove dir node ∧ cursorAfterMove dir node < node.array_len then
    (exprstatelistFor node (cursorAfterMove dir node).toNat).length == node.natts
  else true

/-- ExecReScanValuesScan: clear the result tuple slot, ExecScanReScan (which
touches no ValuesScanState field here: there is no EvalPlanQual state in
this setting), and reset curr_idx to -1. -/
def ExecReScanValuesScan (node : ValuesScanState) : ValuesScanState :=
  { node with ps_ResultTupleSlot := none, curr_idx := -1 }

/-- ValuesRecheck: nothing to check, always true. -/
def ValuesRecheck (_node : ValuesScanState) (_slot : Option (List (Datum × Bool))) : Bool :=
  true

/-- Run a sequence of Next calls (the given directions, in order). -/
def runNexts (node : ValuesScanState) (ds : List ScanDirection) : ValuesScanState :=
  ds.foldl (fun t d => ValuesNext d t) node

/-- The outputs (returned scan slots) of a sequence of Next calls. -/
def nextTrace (node : ValuesScanState) : List ScanDirection → List (Option (List (Datum × Bool)))
  | [] => []
  | d :: ds => (ValuesNext d node).ss_ScanTupleSlot :: nextTrace (ValuesNext d node) ds

/-- One externally drivable operation on the node. -/
inductive Op where
  | next (d : ScanDirection)
  | rescan
deriving DecidableEq

/-- Apply one operation. -/
def applyOp (node : ValuesScanState) : Op → ValuesScanState
  | Op.next d => ValuesNext d node
  | Op.rescan => ExecReScanValuesScan node

/-- Run a sequence of operations. -/
def runOps (node : ValuesScanState) (ops : List Op) : ValuesScanState :=
  ops.foldl applyOp node

/-- The materialized form of a row expression list: each expression
evaluated and its value forced read-only, as ValuesNext stores it. -/
def materializedRow (exprs : List Expr) : List (Datum × Bool) :=
  exprs.map fun e =>
    (MakeExpandedObjectReadOnly (evalExpr e).1 (evalExpr e).2, (evalExpr e).2)

/-- The shape every state reachable from ExecInitValuesScan keeps: the fields
ValuesNext and ExecReScanValuesScan never rewrite, characterized against the
originating values lists. -/
def goodState (vl : List (List Expr)) (b : Bool) (s : ValuesScanState) : Prop :=
  s.exprlists = vl ∧
  s.exprstatelists = vl.map (fun row =>
    if b && contain_subplans row then some (ExecInitExprList row true) else none) ∧
  s.array_len = (vl.length : Int) ∧
  s.natts = (vl.headD []).length

/-- Agreement on the fields that determine ValuesNext's behavior (the slots
are overwritten before being read, so they are not part of the core). -/
def coreEq (s t : ValuesScanState) : Prop :=
  s.exprlists = t.exprlists ∧ s.exprstatelists = t.exprstatelists ∧
  s.array_len = t.array_len ∧ s.curr_idx = t.curr_idx

/-- The spec's scenario-A/B row table [[1+1, 'x'], [2+2, 'y']]. -/
def table2 : List (List Expr) :=
  [[Expr.add (Expr.intLit 1) (Expr.intLit 1), Expr.strLit "x"],
   [Expr.add (Expr.intLit 2) (Expr.intLit 2), Expr.strLit "y"]]

/-- Placeholder state used only as the default of Option.getD below. -/
def dummyState : ValuesScanState :=
  { exprlists := [], exprstatelists := [], array_len := 0, curr_idx := -1, natts := 0,
    ss_ScanTupleSlot := none, ps_ResultTupleSlot := none, rowcontext := 0, ps_ExprContext := 1 }

/-- The state a fresh Open yields on table2. -/
def table2State : ValuesScanState :=
  (ExecInitValuesScan table2 false).getD dummyState

/-- A row table whose first row contains a nested SubPlan and whose second
row produces an expanded (read-write) datum and a NULL. -/
def tableSub : List (List Expr) :=
  [[Expr.subplan (Expr.intLit 5), Expr.intLit 7],
   [Expr.expanded (Expr.intLit 9), Expr.nullLit]]

/-- The state a fresh Open yields on tableSub (with subplan states present
in the estate). -/
def tableSubState : ValuesScanState :=
  (ExecInitValuesScan tableSub true).getD dummyState

theorem ValuesNext_frame (d : ScanDirection) (t : ValuesScanState) :
    (ValuesNext d t).exprlists = t.exprlists ∧
    (ValuesNext d t).exprstatelists = t.exprstatelists ∧
    (ValuesNext d t).array_len = t.array_len ∧
    (ValuesNext d t).natts = t.natts ∧
    (ValuesNext d t).ps_ResultTupleSlot = t.ps_ResultTupleSlot ∧
    (ValuesNext d t).rowcontext = t.rowcontext ∧
    (ValuesNext d t).ps_ExprContext = t.ps_ExprContext := by
  unfold ValuesNext
  split <;> simp

theorem ValuesNext_curr (d : ScanDirection) (t : ValuesScanState) :
    (ValuesNext d t).curr_idx = cursorAfterMove d t := by
  unfold ValuesNext
  split <;> simp

theorem ValuesNext_slot (d : ScanDirection) (t : ValuesScanState) :
    (ValuesNext d t).ss_ScanTupleSlot =
      if 0 ≤ cursorAfterMove d t ∧ cursorAfterMove d t < t.array_len then
        some (materializeRowFrom t (cursorAfterMove d t).toNat)
      else none := by
  unfold ValuesNext
  split <;> rename_i h <;> simp [h]

theorem evalExpr_null_not_rw (e : Expr) :
    (evalExpr e).2 = true → (evalExpr e).1.rw = false := by
  induction e with
  | intLit n => simp [evalExpr]
  | strLit s => simp [evalExpr]
  | nullLit => simp [evalExpr]
  | add a b iha ihb =>
      simp only [evalExpr]
      split
      · simp
      · split <;> simp
  | expanded e ih =>
      simp only [evalExpr]
      split
      · exact ih
      · simp
  | subplan e ih => simpa [evalExpr] using ih

theorem init_goodState (vl : List (List Expr)) (b : Bool) (s : ValuesScanState)
    (h : ExecInitValuesScan vl b = some s) :
    goodState vl b s ∧ s.curr_idx = -1 ∧ s.ss_ScanTupleSlot = none ∧
    s.ps_ResultTupleSlot = none ∧ vl ≠ [] := by
  cases vl with
  | nil => simp [ExecInitValuesScan] at h
  | cons first rest =>
      simp only [ExecInitValuesScan, Option.some_inj] at h
      subst h
      simp [goodState]

theorem goodState_next (vl : List (List Expr)) (b : Bool) (d : ScanDirection)
    (s : ValuesScanState) (hg : goodState vl b s) : goodState vl b (ValuesNext d s) := by
  obtain ⟨h1, h2, h3, h4⟩ := hg
  obtain ⟨f1, f2, f3, f4, -⟩ := ValuesNext_frame d s
  exact ⟨f1.trans h1, f2.trans h2, f3.trans h3, f4.trans h4⟩

theorem goodState_rescan (vl : List (List Expr)) (b : Bool) (s : ValuesScanState)
    (hg : goodState vl b s) : goodState vl b (ExecReScanValuesScan s) := by
  obtain ⟨h1, h2, h3, h4⟩ := hg
  exact ⟨h1, h2, h3, h4⟩

theorem goodState_runOps (vl : List (List Expr)) (b : Bool) (ops : List Op)
    (s : ValuesScanState) (hg : goodState vl b s) : goodState vl b (runOps s ops) := by
  induction ops generalizing s with
  | nil => exact hg
  | cons o ops ih =>
      cases o with
      | next d => exact ih _ (goodState_next vl b d s hg)
      | rescan => exact ih _ (goodState_rescan vl b s hg)

theorem materializeRowFrom_good (vl : List (List Expr)) (b : Bool) (s : ValuesScanState)
    (hg : goodState vl b s) (i : Nat) (row : List Expr) (hrow : vl[i]? = some row) :
    materializeRowFrom s i = materializedRow row := by
  obtain ⟨h1, h2, -, -⟩ := hg
  have hi : i < vl.length := by
    by_contra hlt
    simp [List.getElem?_eq_none (Nat.le_of_not_lt hlt)] at hrow
  unfold materializeRowFrom exprstatelistFor
  rw [h1, h2]
  have hmap : (vl.map (fun row =>
      if b && contain_subplans row then some (ExecInitExprList row true) else none)).getD i none
      = if b && contain_subplans row then some (ExecInitExprList row true) else none := by
    rw [List.getD_eq_getElem?_getD, List.getElem?_map, hrow]
    rfl
  have hrowD : vl.getD i [] = row := by
    rw [List.getD_eq_getElem?_getD, hrow]
    rfl
  rw [hmap, hrowD]
  by_cases hc : (b && contain_subplans row) = true <;>
    simp [hc, ExecInitExprList, materializedRow, ExecEvalExpr, List.map_map, Function.comp]

theorem cursorAfterMove_congr (d : ScanDirection) (s t : ValuesScanState) (h : coreEq s t) :
    cursorAfterMove d s = cursorAfterMove d t := by
  obtain ⟨-, -, h3, h4⟩ := h
  cases d <;> simp [cursorAfterMove, h3, h4]

theorem materializeRowFrom_congr (s t : ValuesScanState) (h : coreEq s t) (i : Nat) :
    materializeRowFrom s i = materializeRowFrom t i := by
  obtain ⟨h1, h2, -, -⟩ := h
  simp [materializeRowFrom, exprstatelistFor, h1, h2]

theorem ValuesNext_congr (d : ScanDirection) (s t : ValuesScanState) (h : coreEq s t) :
    coreEq (ValuesNext d s) (ValuesNext d t) ∧
    (ValuesNext d s).ss_ScanTupleSlot = (ValuesNext d t).ss_ScanTupleSlot := by
  have hc := cursorAfterMove_congr d s t h
  have hm := materializeRowFrom_congr s t h
  obtain ⟨h1, h2, h3, h4⟩ := h
  refine ⟨⟨?_, ?_, ?_, ?_⟩, ?_⟩
  · exact ((ValuesNext_frame d s).1.trans h1).trans (ValuesNext_frame d t).1.symm
  · exact ((ValuesNext_frame d s).2.1.trans h2).trans (ValuesNext_frame d t).2.1.symm
  · exact ((ValuesNext_frame d s).2.2.1.trans h3).trans (ValuesNext_frame d t).2.2.1.symm
  · rw [ValuesNext_curr, ValuesNext_curr, hc]
  · rw [ValuesNext_slot, ValuesNext_slot, hc, h3, hm]

theorem nextTrace_congr (ds : List ScanDirection) :
    ∀ s t : ValuesScanState, coreEq s t → nextTrace s ds = nextTrace t ds := by
  induction ds with
  | nil => intro s t _; rfl
  | cons d ds ih =>
      intro s t h
      obtain ⟨hcore, hslot⟩ := ValuesNext_congr d s t h
      simp only [nextTrace, hslot]
      rw [ih _ _ hcore]

theorem runNexts_frame (ds : List ScanDirection) :
    ∀ s : ValuesScanState,
      (runNexts s ds).exprlists = s.exprlists ∧
      (runNexts s ds).exprstatelists = s.exprstatelists ∧
      (runNexts s ds).array_len = s.array_len := by
  induction ds with
  | nil => intro s; exact ⟨rfl, rfl, rfl⟩
  | cons d ds ih =>
      intro s
      have hstep := ValuesNext_frame d s
      have hrec := ih (ValuesNext d s)
      have hfold : runNexts s (d :: ds) = runNexts (ValuesNext d s) ds := rfl
      rw [hfold]
      exact ⟨hrec.1.trans hstep.1, hrec.2.1.trans hstep.2.1, hrec.2.2.trans hstep.2.2.1⟩

theorem goodState_iterate (vl : List (List Expr)) (b : Bool) (d : ScanDirection) (n : Nat)
    (s : ValuesScanState) (hg : goodState vl b s) :
    goodState vl b ((ValuesNext d)^[n] s) := by
  induction n with
  | zero => exact hg
  | succ n ih =>
      rw [Function.iterate_succ_apply']
      exact goodState_next vl b d _ ih

theorem forwardIter (vl : List (List Expr)) (b : Bool) (s : ValuesScanState)
    (hg : goodState vl b s) (h0 : s.curr_idx = -1) (k : Nat) :
    ((ValuesNext ScanDirection.forward)^[k + 1] s).curr_idx = ((min k vl.length : Nat) : Int) ∧
    ((ValuesNext ScanDirection.forward)^[k + 1] s).ss_ScanTupleSlot =
      (vl[k]?).map materializedRow := by
  induction k with
  | zero =>
      rw [Nat.zero_add, Function.iterate_one]
      have harr : s.array_len = (vl.length : Int) := hg.2.2.1
      have hc : cursorAfterMove ScanDirection.forward s = 0 := by
        simp only [cursorAfterMove, h0, harr]
        rw [if_pos (by omega)]
        omega
      constructor
      · rw [ValuesNext_curr, hc]
        omega
      · rw [ValuesNext_slot, hc, harr]
        by_cases hN : 0 < vl.length
        · rw [if_pos ⟨le_refl 0, by exact_mod_cast hN⟩]
          simp only [Int.toNat_zero]
          rw [materializeRowFrom_good vl b s hg 0 (vl.getD 0 [])
              (by rw [List.getD_eq_getElem?_getD, List.getElem?_eq_getElem hN]; rfl)]
          rw [List.getElem?_eq_getElem hN]
          simp [List.getD_eq_getElem?_getD, List.getElem?_eq_getElem hN]
        · have hN0 : vl.length = 0 := by omega
          rw [if_neg (by rw [hN0]; simp), List.getElem?_eq_none (by omega)]
          rfl
  | succ k ih =>
      rw [Function.iterate_succ_apply']
      have hgt : goodState vl b ((ValuesNext ScanDirection.forward)^[k + 1] s) :=
        goodState_iterate vl b ScanDirection.forward (k + 1) s hg
      have harr : ((ValuesNext ScanDirection.forward)^[k + 1] s).array_len = (vl.length : Int) :=
        hgt.2.2.1
      have hcurr := ih.1
      have hc : cursorAfterMove ScanDirection.forward ((ValuesNext ScanDirection.forward)^[k + 1] s)
          = ((min (k + 1) vl.length : Nat) : Int) := by
        simp only [cursorAfterMove, hcurr, harr]
        split <;> rename_i hlt
        · have hk : min k vl.length < vl.length := by exact_mod_cast hlt
          have hkN : k < vl.length := by omega
          have h1 : min k vl.length = k := by omega
          have h2 : min (k + 1) vl.length = k + 1 := by omega
          rw [h1, h2]
          push_cast
          ring
        · have hk : ¬ (min k vl.length < vl.length) := fun hcon => hlt (by exact_mod_cast hcon)
          have hkN : vl.length ≤ k := by omega
          have h1 : min k vl.length = vl.length := by omega
          have h2 : min (k + 1) vl.length = vl.length := by omega
          rw [h1, h2]
      constructor
      · rw [ValuesNext_curr, hc]
      · rw [ValuesNext_slot, hc, harr]
        by_cases hk : k + 1 < vl.length
        · have h2 : min (k + 1) vl.length = k + 1 := by omega
          rw [h2, if_pos ⟨by omega, by exact_mod_cast hk⟩]
          have htn : ((k + 1 : Nat) : Int).toNat = k + 1 := by omega
          rw [htn, materializeRowFrom_good vl b _ hgt (k + 1) (vl.getD (k + 1) [])
              (by rw [List.getD_eq_getElem?_getD, List.getElem?_eq_getElem hk]; rfl)]
          rw [List.getElem?_eq_getElem hk]
          simp [List.getD_eq_getElem?_getD, List.getElem?_eq_getElem hk]
        · have h2 : min (k + 1) vl.length = vl.length := by omega
          rw [h2, if_neg (by simp), List.getElem?_eq_none (by omega)]
          rfl

/-- C1: from a successful fresh Open (the fresh Open exists exactly for
nonempty tables, see C3), the k-th forward Next call (k counted from 0)
returns the materialized k-th row of the table while k < N, and every later
forward call returns the cleared slot, i.e. the end marker: the forward scan
yields exactly the N rows in table order, then an end marker, and keeps
yielding end markers (the cursor saturates). -/
theorem c1_forward_scan_yields_rows_then_end (vl : List (List Expr)) (b : Bool)
    (s : ValuesScanState) (h : ExecInitValuesScan vl b = some s) (k : Nat) :
    ((ValuesNext ScanDirection.forward)^[k + 1] s).ss_ScanTupleSlot =
      (vl[k]?).map materializedRow := by
  obtain ⟨hg, h0, -, -, -⟩ := init_goodState vl b s h
  exact (forwardIter vl b s hg h0 k).2

theorem c1_witness :
    ((ValuesNext ScanDirection.forward)^[1] table2State).ss_ScanTupleSlot =
      some (materializedRow [Expr.add (Expr.intLit 1) (Expr.intLit 1), Expr.strLit "x"]) ∧
    ((ValuesNext ScanDirection.forward)^[3] table2State).ss_ScanTupleSlot = none := by
  constructor
  · have h := c1_forward_scan_yields_rows_then_end table2 false table2State rfl 0
    simpa [table2] using h
  · have h := c1_forward_scan_yields_rows_then_end table2 false table2State rfl 2
    simpa [table2] using h

/-- C2 (counterexample): on the row table [[1+1, 'x'], [2+2, 'y']], the first
Next(Backward) after a fresh Open does not return (4, "y"): the cursor sits
at before-first (-1), the backward guard (curr_idx >= 0) keeps it there, and
the call returns the cleared slot, the end marker. -/
theorem c2_counterexample_backward_from_fresh :
    ((ExecInitValuesScan table2 false).map fun s =>
        (ValuesNext ScanDirection.backward s).ss_ScanTupleSlot) = some none ∧
    ((ExecInitValuesScan table2 false).map fun s =>
        (ValuesNext ScanDirection.backward s).ss_ScanTupleSlot) ≠
      some (some [((⟨Val.vint 4, false⟩ : Datum), false),
                  ((⟨Val.vstr "y", false⟩ : Datum), false)]) := by
  exact ⟨rfl, by decide⟩

/-- C2 (amended): a backward scan from a fresh Open yields only end markers
(the cursor stays saturated at before-first); the rows are produced in
reverse table order by backward calls once a forward scan has exhausted the
table: on [[1+1,'x'],[2+2,'y']], the two backward calls from fresh Open both
return the end marker, while after three forward calls the backward calls
return (4, "y"), then (2, "x"), then the end marker. -/
theorem c2_amended_backward_scan :
    ((ExecInitValuesScan table2 false).map fun s =>
        nextTrace s [ScanDirection.backward, ScanDirection.backward]) = some [none, none] ∧
    ((ExecInitValuesScan table2 false).map fun s =>
        nextTrace (runNexts s [ScanDirection.forward, ScanDirection.forward, ScanDirection.forward])
          [ScanDirection.backward, ScanDirection.backward, ScanDirection.backward]) =
      some [some [((⟨Val.vint 4, false⟩ : Datum), false),
                  ((⟨Val.vstr "y", false⟩ : Datum), false)],
            some [((⟨Val.vint 2, false⟩ : Datum), false),
                  ((⟨Val.vstr "x", false⟩ : Datum), false)],
            none] := by
  exact ⟨rfl, rfl⟩

/-- C3: Open applied to the empty row table fails fatally instead of
proceeding: deriving the schema calls linitial on the empty values list,
which dereferences no cell (a fatal failure, modelled as none); no state is
constructed. -/
theorem c3_open_empty_table_fails (b : Bool) : ExecInitValuesScan [] b = none := rfl

/-- C4: at construction the cache entry for row i is the eagerly compiled,
plan-linked (permanent) expression state list exactly when the row contains
a SubPlan — under the executor invariant that es_subplanstates is empty
only when no SubPlan occurs anywhere — and is absent (NIL) otherwise;
neither ValuesNext nor ExecReScanValuesScan ever writes the cache, so
permanent entries arise only at construction; and when the entry is absent,
the states used by materialization are compiled there lazily, with NULL
parent. -/
theorem c4_eager_compile_iff_subplans (vl : List (List Expr)) (b : Bool)
    (s : ValuesScanState) (h : ExecInitValuesScan vl b = some s)
    (hb : b = false → ∀ row ∈ vl, contain_subplans row = false) :
    (∀ (i : Nat) (row : List Expr), vl[i]? = some row →
        s.exprstatelists[i]? =
          some (if contain_subplans row then some (ExecInitExprList row true) else none)) ∧
    (∀ d t, (ValuesNext d t).exprstatelists = t.exprstatelists) ∧
    (∀ t, (ExecReScanValuesScan t).exprstatelists = t.exprstatelists) ∧
    (∀ (t : ValuesScanState) (i : Nat), t.exprstatelists.getD i none = none →
        exprstatelistFor t i = ExecInitExprList (t.exprlists.getD i []) false) := by
  refine ⟨?_, ?_, ?_, ?_⟩
  · intro i row hrow
    have hg := (init_goodState vl b s h).1
    rw [hg.2.1, List.getElem?_map, hrow]
    cases b with
    | false =>
        have hmem : row ∈ vl := by
          obtain ⟨hi, he⟩ := List.getElem?_eq_some.mp hrow
          exact he ▸ List.getElem_mem hi
        have hzero := hb rfl row hmem
        simp [hzero]
    | true => simp
  · intro d t
    exact (ValuesNext_frame d t).2.1
  · intro t
    rfl
  · intro t i hnone
    unfold exprstatelistFor
    rw [hnone]
    rfl

theorem c4_witness :
    tableSubState.exprstatelists[0]? =
      some (some (ExecInitExprList [Expr.subplan (Expr.intLit 5), Expr.intLit 7] true)) ∧
    tableSubState.exprstatelists[1]? = some none := by
  have h := c4_eager_compile_iff_subplans tableSub true tableSubState rfl (by simp)
  constructor
  · have h0 := h.1 0 [Expr.subplan (Expr.intLit 5), Expr.intLit 7] rfl
    simpa [show contain_subplans [Expr.subplan (Expr.intLit 5), Expr.intLit 7] = true from rfl]
      using h0
  · have h1 := h.1 1 [Expr.expanded (Expr.intLit 9), Expr.nullLit] rfl
    simpa [show contain_subplans [Expr.expanded (Expr.intLit 9), Expr.nullLit] = false from rfl]
      using h1

/-- C5: after any finite sequence of Next calls in either direction, a
ReScan restores behavior identical to the fresh Open: any further sequence
of Next calls produces exactly the same outputs, and the expression-state
cache (in particular every permanently compiled sub-plan state) is exactly
the one built at construction, not reconstructed. -/
theorem c5_rescan_restores_fresh_behavior (vl : List (List Expr)) (b : Bool)
    (s : ValuesScanState) (h : ExecInitValuesScan vl b = some s)
    (ds ds' : List ScanDirection) :
    nextTrace (ExecReScanValuesScan (runNexts s ds)) ds' = nextTrace s ds' ∧
    (ExecReScanValuesScan (runNexts s ds)).exprstatelists = s.exprstatelists := by
  obtain ⟨-, h0, -, -, -⟩ := init_goodState vl b s h
  have hf := runNexts_frame ds s
  have hcore : coreEq (ExecReScanValuesScan (runNexts s ds)) s := by
    refine ⟨hf.1, hf.2.1, hf.2.2, ?_⟩
    show (-1 : Int) = s.curr_idx
    exact h0.symm
  exact ⟨nextTrace_congr ds' _ _ hcore, hf.2.1⟩

theorem c5_witness :
    nextTrace (ExecReScanValuesScan (runNexts tableSubState [ScanDirection.forward]))
        [ScanDirection.forward, ScanDirection.forward] =
      nextTrace tableSubState [ScanDirection.forward, ScanDirection.forward] ∧
    (ExecReScanValuesScan (runNexts tableSubState [ScanDirection.forward])).exprstatelists =
      tableSubState.exprstatelists :=
  c5_rescan_restores_fresh_behavior tableSub true tableSubState rfl [ScanDirection.forward]
    [ScanDirection.forward, ScanDirection.forward]

/-- C6: ExecReScanValuesScan resets the cursor to before-first (-1) and
clears the result tuple slot (the output row handed upward), and leaves
every other field of the state unchanged: the expression-state cache, the
row table, array_len, the tuple width, both expression contexts, and the
scan tuple slot. -/
theorem c6_rescan_touches_only_cursor_and_output (s : ValuesScanState) :
    (ExecReScanValuesScan s).curr_idx = -1 ∧
    (ExecReScanValuesScan s).ps_ResultTupleSlot = none ∧
    (ExecReScanValuesScan s).exprstatelists = s.exprstatelists ∧
    (ExecReScanValuesScan s).exprlists = s.exprlists ∧
    (ExecReScanValuesScan s).array_len = s.array_len ∧
    (ExecReScanValuesScan s).natts = s.natts ∧
    (ExecReScanValuesScan s).rowcontext = s.rowcontext ∧
    (ExecReScanValuesScan s).ps_ExprContext = s.ps_ExprContext ∧
    (ExecReScanValuesScan s).ss_ScanTupleSlot = s.ss_ScanTupleSlot :=
  ⟨rfl, rfl, rfl, rfl, rfl, rfl, rfl, rfl, rfl⟩

/-- C7: whenever ValuesNext materializes a row, every stored column is the
result of passing the evaluated value through MakeExpandedObjectReadOnly
before it is placed in the slot, and consequently no datum stored in the
output row is a read-write expanded object. -/
theorem c7_values_frozen_before_store (d : ScanDirection) (s : ValuesScanState)
    (row : List (Datum × Bool)) (h : (ValuesNext d s).ss_ScanTupleSlot = some row) :
    row = (exprstatelistFor s (cursorAfterMove d s).toNat).map (fun st =>
        (MakeExpandedObjectReadOnly (ExecEvalExpr st).1 (ExecEvalExpr st).2,
         (ExecEvalExpr st).2)) ∧
    ∀ p ∈ row, p.1.rw = false := by
  rw [ValuesNext_slot] at h
  by_cases hc : 0 ≤ cursorAfterMove d s ∧ cursorAfterMove d s < s.array_len
  case neg =>
    rw [if_neg hc] at h
    exact absurd h (by simp)
  rw [if_pos hc] at h
  have hrow : row = materializeRowFrom s (cursorAfterMove d s).toNat :=
    (Option.some_inj.mp h).symm
  constructor
  · rw [hrow]
    rfl
  · intro p hp
    rw [hrow] at hp
    unfold materializeRowFrom at hp
    obtain ⟨st, hst, hpe⟩ := List.mem_map.mp hp
    rw [← hpe]
    show (MakeExpandedObjectReadOnly (ExecEvalExpr st).1 (ExecEvalExpr st).2).rw = false
    unfold MakeExpandedObjectReadOnly
    by_cases hn : (ExecEvalExpr st).2 = true
    · rw [if_pos hn]
      exact evalExpr_null_not_rw st.expr hn
    · rw [if_neg hn]

theorem c7_witness :
    ((⟨Val.vint 9, false⟩ : Datum), false).1.rw = false := by
  have h := c7_values_frozen_before_store ScanDirection.forward
      (ValuesNext ScanDirection.forward tableSubState)
      [((⟨Val.vint 9, false⟩ : Datum), false), ((⟨Val.vint 0, false⟩ : Datum), true)]
      (by decide)
  exact h.2 ((⟨Val.vint 9, false⟩ : Datum), false) (by decide)

theorem assertHolds_good (vl : List (List Expr)) (b : Bool) (t : ValuesScanState)
    (hg : goodState vl b t) (hw : ∀ row ∈ vl, row.length = (vl.headD []).length)
    (d : ScanDirection) : ValuesNextAssertHolds d t = true := by
  obtain ⟨h1, h2, h3, h4⟩ := hg
  unfold ValuesNextAssertHolds
  split
  case isFalse => rfl
  case isTrue hcond =>
    obtain ⟨hge, hlt⟩ := hcond
    set i := (cursorAfterMove d t).toNat with hidef
    have hiN : i < vl.length := by
      rw [h3] at hlt
      omega
    have hrow : vl[i]? = some vl[i] := List.getElem?_eq_getElem hiN
    have hmap : (vl.map (fun row =>
        if b && contain_subplans row then some (ExecInitExprList row true) else none)).getD i none
        = if b && contain_subplans vl[i] then some (ExecInitExprList vl[i] true) else none := by
      rw [List.getD_eq_getElem?_getD, List.getElem?_map, hrow]
      rfl
    have hrowD : vl.getD i [] = vl[i] := by
      rw [List.getD_eq_getElem?_getD, hrow]
      rfl
    have hlen : vl[i].length = t.natts := by
      rw [h4]
      exact hw _ (List.getElem_mem hiN)
    unfold exprstatelistFor
    rw [h1, h2, hmap, hrowD]
    by_cases hc : (b && contain_subplans vl[i]) = true <;>
      simp [hc, ExecInitExprList, hlen]

/-- C8: under the parser-established precondition that every row of the
table has the same width as the first row (from which natts is derived),
the Assert in ValuesNext — the expression-state list length equals the
tuple descriptor's attribute count — holds in whatever state any sequence
of Next and ReScan operations has produced from a fresh Open. -/
theorem c8_column_count_assert (vl : List (List Expr)) (b : Bool) (s : ValuesScanState)
    (h : ExecInitValuesScan vl b = some s)
    (hw : ∀ row ∈ vl, row.length = (vl.headD []).length)
    (ops : List Op) (d : ScanDirection) :
    ValuesNextAssertHolds d (runOps s ops) = true := by
  have hg := (init_goodState vl b s h).1
  exact assertHolds_good vl b _ (goodState_runOps vl b ops s hg) hw d

theorem c8_witness :
    ValuesNextAssertHolds ScanDirection.forward
      (runOps table2State [Op.next ScanDirection.forward, Op.rescan]) = true :=
  c8_column_count_assert table2 false table2State rfl (by decide)
    [Op.next ScanDirection.forward, Op.rescan] ScanDirection.forward

/-- C9: the cursor is -1 after Open and after ReScan; a forward Next
increments it exactly when curr_idx < array_len and a backward Next
decrements it exactly when curr_idx >= 0, so each call moves it by at most
one and keeps it inside [-1, array_len]; and a Next call leaves a
materialized row in the slot exactly when the moved-to position lies in
[0, array_len). -/
theorem c9_cursor_range_invariant :
    (∀ vl b s, ExecInitValuesScan vl b = some s → s.curr_idx = -1) ∧
    (∀ s, (ExecReScanValuesScan s).curr_idx = -1) ∧
    (∀ s, (ValuesNext ScanDirection.forward s).curr_idx =
        if s.curr_idx < s.array_len then s.curr_idx + 1 else s.curr_idx) ∧
    (∀ s, (ValuesNext ScanDirection.backward s).curr_idx =
        if 0 ≤ s.curr_idx then s.curr_idx - 1 else s.curr_idx) ∧
    (∀ d s, -1 ≤ s.curr_idx → s.curr_idx ≤ s.array_len →
        -1 ≤ (ValuesNext d s).curr_idx ∧ (ValuesNext d s).curr_idx ≤ s.array_len ∧
        (ValuesNext d s).curr_idx - s.curr_idx ≤ 1 ∧
        s.curr_idx - (ValuesNext d s).curr_idx ≤ 1) ∧
    (∀ d s, (ValuesNext d s).ss_ScanTupleSlot ≠ none ↔
        0 ≤ (ValuesNext d s).curr_idx ∧ (ValuesNext d s).curr_idx < s.array_len) := by
  refine ⟨?_, ?_, ?_, ?_, ?_, ?_⟩
  · intro vl b s h
    exact (init_goodState vl b s h).2.1
  · intro s
    rfl
  · intro s
    rw [ValuesNext_curr]
    rfl
  · intro s
    rw [ValuesNext_curr]
    rfl
  · intro d s h1 h2
    have hc := ValuesNext_curr d s
    rw [hc]
    unfold cursorAfterMove
    cases d <;> split <;> omega
  · intro d s
    rw [ValuesNext_slot, ValuesNext_curr]
    by_cases hc : 0 ≤ cursorAfterMove d s ∧ cursorAfterMove d s < s.array_len
    · rw [if_pos hc]
      simp [hc]
    · rw [if_neg hc]
      simp [hc]

theorem c9_witness :
    -1 ≤ (ValuesNext ScanDirection.forward table2State).curr_idx ∧
    (ValuesNext ScanDirection.forward table2State).curr_idx ≤ table2State.array_len := by
  have h := c9_cursor_range_invariant.2.2.2.2.1 ScanDirection.forward table2State
      (by decide) (by decide)
  exact ⟨h.1, h.2.1⟩

/-- C10: on a nonempty table, once the forward scan is exhausted (the cursor
saturated at array_len after at least N forward Next calls), a single
backward Next call does not stay exhausted: it moves the cursor to N-1 and
returns the materialized last row, resuming backward traversal. -/
theorem c10_backward_resumes_after_forward_exhaustion (vl : List (List Expr)) (b : Bool)
    (s : ValuesScanState) (h : ExecInitValuesScan vl b = some s) (k : Nat)
    (hk : vl.length ≤ k) :
    (ValuesNext ScanDirection.backward
        ((ValuesNext ScanDirection.forward)^[k + 1] s)).curr_idx = (vl.length : Int) - 1 ∧
    (ValuesNext ScanDirection.backward
        ((ValuesNext ScanDirection.forward)^[k + 1] s)).ss_ScanTupleSlot =
      some (materializedRow (vl.getD (vl.length - 1) [])) := by
  obtain ⟨hg, h0, -, -, hne⟩ := init_goodState vl b s h
  have hN : 1 ≤ vl.length := by
    cases vl with
    | nil => exact absurd rfl hne
    | cons a l => simp
  have hgt : goodState vl b ((ValuesNext ScanDirection.forward)^[k + 1] s) :=
    goodState_iterate vl b ScanDirection.forward (k + 1) s hg
  have harr : ((ValuesNext ScanDirection.forward)^[k + 1] s).array_len = (vl.length : Int) :=
    hgt.2.2.1
  have hcurr : ((ValuesNext ScanDirection.forward)^[k + 1] s).curr_idx = (vl.length : Int) := by
    rw [(forwardIter vl b s hg h0 k).1]
    congr 1
    omega
  have hc : cursorAfterMove ScanDirection.backward ((ValuesNext ScanDirection.forward)^[k + 1] s)
      = (vl.length : Int) - 1 := by
    have hdef : cursorAfterMove ScanDirection.backward ((ValuesNext ScanDirection.forward)^[k + 1] s)
        = if ((ValuesNext ScanDirection.forward)^[k + 1] s).curr_idx ≥ 0
          then ((ValuesNext ScanDirection.forward)^[k + 1] s).curr_idx - 1
          else ((ValuesNext ScanDirection.forward)^[k + 1] s).curr_idx := rfl
    rw [hdef, hcurr, if_pos (by omega)]
  constructor
  · rw [ValuesNext_curr, hc]
  · rw [ValuesNext_slot, hc, harr, if_pos ⟨by omega, by omega⟩]
    have htn : ((vl.length : Int) - 1).toNat = vl.length - 1 := by omega
    have hlt : vl.length - 1 < vl.length := by omega
    rw [htn, materializeRowFrom_good vl b _ hgt (vl.length - 1) (vl.getD (vl.length - 1) [])
        (by rw [List.getD_eq_getElem?_getD, List.getElem?_eq_getElem hlt]; rfl)]

theorem c10_witness :
    (ValuesNext ScanDirection.backward
        ((ValuesNext ScanDirection.forward)^[3] table2State)).curr_idx = 1 ∧
    (ValuesNext ScanDirection.backward
        ((ValuesNext ScanDirection.forward)^[3] table2State)).ss_ScanTupleSlot =
      some (materializedRow [Expr.add (Expr.intLit 2) (Expr.intLit 2), Expr.strLit "y"]) := by
  have h := c10_backward_resumes_after_forward_exhaustion table2 false table2State rfl 2
      (by decide)
  constructor
  · simpa [table2] using h.1
  · simpa [table2] using h.2

end PGValuesScan
